import Mathlib

set_option maxHeartbeats 4000000
set_option maxRecDepth 16000

/-!
Verification of the Phoenix SDR signal relay (src/src/signal_relay.c).

The development shallowly embeds the data structures and operations of the
relay: the per-client ring buffer (client_buffer_t), the drain step of
client_list_send_pending for a single client, the discovery registry
(edge nodes and services), the rendezvous port allocator, the service-list
response builder, the SDR payload escape/unescape pair, and the minimal
JSON extractor.  Byte arrays are modelled as total functions from index to
byte, C strings as List Char or String, C int counters as Int, sizes as Nat.
Socket send results are supplied by an oracle (SendRes), since the peer
behaviour is environmental.
-/

namespace PhoenixRelay

/-! ### Ring buffer (client_buffer_t, signal_relay.c lines 139-208) -/

/-- Per-client ring buffer, struct client_buffer_t (lines 139-147).
The malloc-ed byte array is modelled as a total function from index to
byte value; only indices below capacity are ever used by the code. -/
structure ClientBuffer where
  data : Nat → Nat
  capacity : Nat
  write_idx : Nat
  read_idx : Nat
  count : Nat
  overflows : Nat
  bytes_sent : Nat

/-- CLIENT_BUFFER_SIZE (line 76): 30 seconds at the 50 kHz worst case. -/
def CLIENT_BUFFER_SIZE : Nat := 50000 * 30

/-- client_buffer_create (lines 149-166); the fresh array contents are
unobservable (count = 0) and modelled as zeros. -/
def client_buffer_create (capacity : Nat) : ClientBuffer :=
  { data := fun _ => 0, capacity := capacity, write_idx := 0, read_idx := 0,
    count := 0, overflows := 0, bytes_sent := 0 }

/-- One iteration of the loop body of client_buffer_write (lines 178-189):
while full, advance the read index and count an overflow, else grow count;
then store the byte at write_idx and advance write_idx.  The two branches
of the C if are flattened into the record updates; the stored array cell
and the write_idx advance are identical in both. -/
def writeByte (cb : ClientBuffer) (b : Nat) : ClientBuffer :=
  if cb.capacity ≤ cb.count then
    { cb with
      read_idx := (cb.read_idx + 1) % cb.capacity,
      overflows := cb.overflows + 1,
      data := fun j => if j = cb.write_idx then b else cb.data j,
      write_idx := (cb.write_idx + 1) % cb.capacity }
  else
    { cb with
      count := cb.count + 1,
      data := fun j => if j = cb.write_idx then b else cb.data j,
      write_idx := (cb.write_idx + 1) % cb.capacity }

/-- The while loop of client_buffer_write with its written counter. -/
def client_buffer_write_go : ClientBuffer → List Nat → Nat → ClientBuffer × Nat
  | cb, [], written => (cb, written)
  | cb, b :: rest, written => client_buffer_write_go (writeByte cb b) rest (written + 1)

/-- client_buffer_write (lines 175-193): returns the new state and the
returned written count. -/
def client_buffer_write (cb : ClientBuffer) (input : List Nat) : ClientBuffer × Nat :=
  client_buffer_write_go cb input 0

/-- The copy loop of client_buffer_read (lines 199-203): read n bytes from
read_idx onward, advancing read_idx modulo capacity. -/
def readLoop : ClientBuffer → Nat → List Nat × ClientBuffer
  | cb, 0 => ([], cb)
  | cb, n + 1 =>
    let b := cb.data cb.read_idx
    let res := readLoop { cb with read_idx := (cb.read_idx + 1) % cb.capacity } n
    (b :: res.1, res.2)

/-- client_buffer_read (lines 195-208): to_read = min(len, count); after the
copy loop, count decreases and bytes_sent increases by the amount read. -/
def client_buffer_read (cb : ClientBuffer) (len : Nat) : List Nat × ClientBuffer :=
  let to_read := if len < cb.count then len else cb.count
  let res := readLoop cb to_read
  (res.1, { res.2 with count := res.2.count - to_read, bytes_sent := res.2.bytes_sent + to_read })

/-- Abstraction: the queued bytes of the ring, oldest first. -/
def contents (cb : ClientBuffer) : List Nat :=
  (List.range cb.count).map fun i => cb.data ((cb.read_idx + i) % cb.capacity)

/-- Structural well-formedness of a ring buffer: the invariant the code
establishes at creation and maintains across writes and reads. -/
def wfBuf (cb : ClientBuffer) : Prop :=
  cb.count ≤ cb.capacity ∧ cb.read_idx < cb.capacity ∧
    cb.write_idx = (cb.read_idx + cb.count) % cb.capacity

instance (cb : ClientBuffer) : Decidable (wfBuf cb) := by
  unfold wfBuf; exact inferInstance

/-- An operation on a ring buffer, as invoked by the relay. -/
inductive BufOp where
  | write (bs : List Nat)
  | read (len : Nat)

/-- Apply one operation (the bytes returned by a read go to the socket and
are dropped here). -/
def applyBufOp (cb : ClientBuffer) : BufOp → ClientBuffer
  | .write bs => (client_buffer_write cb bs).1
  | .read len => (client_buffer_read cb len).2

/-- Run a sequence of ring operations. -/
def runBufOps (cb : ClientBuffer) (ops : List BufOp) : ClientBuffer :=
  ops.foldl applyBufOp cb

/-- Total number of bytes passed to write across an operation sequence. -/
def totalWritten : List BufOp → Nat
  | [] => 0
  | .write bs :: r => bs.length + totalWritten r
  | .read _ :: r => totalWritten r

/-! ### Broadcast client and the drain step (lines 214-328) -/

/-- Result of a nonblocking send(2) as seen by the relay: ok n means the
socket accepted n bytes (n may be short of the request), wouldBlock is a
negative return with EAGAIN or EWOULDBLOCK, err is any other failure. -/
inductive SendRes where
  | ok (n : Nat)
  | wouldBlock
  | err

/-- One broadcast client (struct client_t, lines 214-221).  delivered is
the byte stream the client socket has accepted so far (TCP delivers it in
order); alive is false once client_list_remove has been called. -/
structure Client where
  buffer : ClientBuffer
  header_sent : Bool
  alive : Bool
  delivered : List Nat

/-- Little-endian byte decomposition of a 32-bit word, as laid out in
memory on the x86-64 Linux target the file documents. -/
def le4 (x : Nat) : List Nat :=
  [x % 256, x / 256 % 256, x / 65536 % 256, x / 16777216 % 256]

/-- The 16 bytes of relay_stream_header_t (lines 48-53) as initialised by
client_list_init (lines 232-238): magic FT32, sample rate, two zero words. -/
def mkStreamHeader (sample_rate : Nat) : List Nat :=
  le4 0x46543332 ++ le4 sample_rate ++ le4 0 ++ le4 0

/-- The body of the per-client loop of client_list_send_pending
(lines 296-326) for one client, with the outcomes of the header send and
the data send supplied as oracles.  Note that after a would-block or a
partial return from the header send the code falls through to the data
send with header_sent still false; only a fatal header error skips the
data phase (the continue on line 303). -/
def drain_client (header : List Nat) (hres dres : SendRes) (c : Client) : Client :=
  let c1 :=
    if c.header_sent then c
    else
      match hres with
      | .ok n =>
        if n = header.length then
          { c with header_sent := true, delivered := c.delivered ++ header }
        else
          { c with delivered := c.delivered ++ header.take n }
      | .wouldBlock => c
      | .err => { c with alive := false }
  if c1.alive = false then c1
  else if 0 < c1.buffer.count then
    let to_send := if c1.buffer.count < 8192 then c1.buffer.count else 8192
    let rd := client_buffer_read c1.buffer to_send
    match dres with
    | .err => { c1 with alive := false }
    | .wouldBlock => { c1 with buffer := (client_buffer_write rd.2 rd.1).1 }
    | .ok s =>
      if s < rd.1.length then
        { c1 with
          buffer := (client_buffer_write rd.2 (rd.1.drop s)).1,
          delivered := c1.delivered ++ rd.1.take s }
      else
        { c1 with buffer := rd.2, delivered := c1.delivered ++ rd.1 }
  else c1

/-- A freshly accepted client (client_list_add, lines 240-263). -/
def freshClient : Client :=
  { buffer := client_buffer_create CLIENT_BUFFER_SIZE, header_sent := false,
    alive := true, delivered := [] }

/-- Concrete input for the FIFO analysis: a well-formed client whose ring
holds 8193 queued bytes (one more than the 8192-byte drain chunk), byte 1
followed by 8192 copies of byte 2, with the stream header already sent. -/
def c2buf : ClientBuffer :=
  { data := fun i => if i = 0 then 1 else 2, capacity := CLIENT_BUFFER_SIZE,
    write_idx := 8193, read_idx := 0, count := 8193, overflows := 0, bytes_sent := 0 }

def c2client : Client :=
  { buffer := c2buf, header_sent := true, alive := true, delivered := [] }

/-- Concrete overflow example: a capacity-4 ring holding two bytes. -/
def c4buf1 : ClientBuffer := (client_buffer_write (client_buffer_create 4) [5, 6]).1

/-- Four more bytes written over c4buf1: the two oldest bytes are discarded. -/
def c4buf2 : ClientBuffer := (client_buffer_write c4buf1 [7, 8, 9, 10]).1

/-- A fresh consumer whose ring has been given three payload bytes by the
broadcast before its first drain. -/
def c1client0 : Client :=
  { freshClient with buffer := (client_buffer_write freshClient.buffer [1, 2, 3]).1 }

/-- First drain step: the header send would-blocks, the payload send
succeeds in full. -/
def c1client1 : Client :=
  drain_client (mkStreamHeader 50000) SendRes.wouldBlock (SendRes.ok 3) c1client0

/-- Second drain step: the header send now succeeds (the ring is empty). -/
def c1client2 : Client :=
  drain_client (mkStreamHeader 50000) (SendRes.ok 16) SendRes.wouldBlock c1client1

/-! ### Discovery registry (lines 94-112 and 828-955) -/

/-- Edge node record (struct edge_node_t, lines 95-100).  service_count is
a C int and may be driven negative by unregister_service, so it is Int. -/
structure EdgeNode where
  fd : Nat
  ip : String
  last_seen : Nat
  service_count : Int
deriving DecidableEq

/-- Service registry entry (struct service_entry_t, lines 103-112). -/
structure Service where
  id : String
  service : String
  ip : String
  ctrl_port : Int
  data_port : Int
  caps : String
  edge_idx : Nat
  registered : Nat
deriving DecidableEq

/-- The discovery coordinator state: the live prefixes of g_edge_nodes and
g_services (lines 352-355). -/
structure Registry where
  edges : List EdgeNode
  services : List Service
deriving DecidableEq

def MAX_EDGE_NODES : Nat := 32
def MAX_SERVICES : Nat := 128

/-- Point update of a list, as the C code mutates one array slot. -/
def updateAt {α : Type} : List α → Nat → (α → α) → List α
  | [], _, _ => []
  | a :: t, 0, f => f a :: t
  | a :: t, n + 1, f => a :: updateAt t n f

/-- add_edge_node (lines 836-855): refresh last_seen if the fd is known,
reject at the cap, else append a new edge (strncpy caps the ip at 63). -/
def add_edge_node (reg : Registry) (fd : Nat) (ip : String) (t : Nat) :
    Registry × Option Nat :=
  match reg.edges.findIdx? (fun e => e.fd == fd) with
  | some idx =>
    ({ reg with edges := updateAt reg.edges idx (fun e => { e with last_seen := t }) }, some idx)
  | none =>
    if MAX_EDGE_NODES ≤ reg.edges.length then (reg, none)
    else
      ({ reg with edges := reg.edges ++
          [{ fd := fd, ip := ip.take 63, last_seen := t, service_count := 0 }] },
       some reg.edges.length)

def defaultEdge : EdgeNode := { fd := 0, ip := "", last_seen := 0, service_count := 0 }

/-- register_service (lines 895-931): update the entry matching (id, svc)
in place, or append a new entry taking the ip from the owning edge and
bumping that edge service counter.  String copies are strncpy with the
field sizes 64, 32, 64 and 128, hence the takes. -/
def register_service (reg : Registry) (edge_idx : Nat) (id svc : String)
    (ctrl_port data_port : Int) (caps : String) (t : Nat) : Registry × Option Nat :=
  match reg.services.findIdx? (fun s => s.id == id && s.service == svc) with
  | some i =>
    ({ reg with services := updateAt reg.services i (fun s =>
        { s with
          ctrl_port := ctrl_port,
          data_port := data_port,
          caps := caps.take 127,
          registered := t }) }, some i)
  | none =>
    if MAX_SERVICES ≤ reg.services.length then (reg, none)
    else
      ({ reg with
          services := reg.services ++
            [{ id := id.take 63, service := svc.take 31,
               ip := ((reg.edges.getD edge_idx defaultEdge).ip).take 63,
               ctrl_port := ctrl_port, data_port := data_port, caps := caps.take 127,
               edge_idx := edge_idx, registered := t }],
          edges := updateAt reg.edges edge_idx
            (fun e => { e with service_count := e.service_count + 1 }) },
       some reg.services.length)

/-- The match condition of unregister_service (lines 936-937): same id,
and same kind when a kind is given. -/
def svcMatch (id : String) (svc : Option String) (s : Service) : Bool :=
  s.id == id && (svc.isNone || svc == some s.service)

/-- The scan loop of unregister_service: on the first match, decrement the
owning edge counter (guarded by the bound check on line 943), delete the
entry and return. -/
def unregister_go (id : String) (svc : Option String) :
    List Service → List EdgeNode → List Service × List EdgeNode
  | [], edges => ([], edges)
  | s :: rest, edges =>
    if svcMatch id svc s then
      (rest,
       if s.edge_idx < edges.length then
         updateAt edges s.edge_idx (fun e => { e with service_count := e.service_count - 1 })
       else edges)
    else
      let r := unregister_go id svc rest edges
      (s :: r.1, r.2)

/-- unregister_service (lines 934-955). -/
def unregister_service (reg : Registry) (id : String) (svc : Option String) : Registry :=
  let r := unregister_go id svc reg.services reg.edges
  { edges := r.2, services := r.1 }

/-- remove_edge_node (lines 859-892): drop every service of the removed
edge, shift edge_idx down for services of higher edges, delete the edge. -/
def remove_edge_node (reg : Registry) (idx : Nat) : Registry :=
  if idx < reg.edges.length then
    { edges := reg.edges.eraseIdx idx,
      services := (reg.services.filter (fun s => s.edge_idx != idx)).map
        (fun s => if idx < s.edge_idx then { s with edge_idx := s.edge_idx - 1 } else s) }
  else reg

/-- One registry transition.  register_service carries the premise that the
caller passes a live edge index: its only call site, process_discovery_message
(line 1000), always passes the index of the connected edge node. -/
inductive RegStep : Registry → Registry → Prop where
  | addEdge (reg : Registry) (fd : Nat) (ip : String) (t : Nat) :
      RegStep reg (add_edge_node reg fd ip t).1
  | register (reg : Registry) (edge_idx : Nat) (id svc : String)
      (cp dp : Int) (caps : String) (t : Nat) (h : edge_idx < reg.edges.length) :
      RegStep reg (register_service reg edge_idx id svc cp dp caps t).1
  | unregister (reg : Registry) (id : String) (svc : Option String) :
      RegStep reg (unregister_service reg id svc)
  | removeEdge (reg : Registry) (idx : Nat) :
      RegStep reg (remove_edge_node reg idx)

/-- Registry states reachable from the empty initial tables. -/
inductive RegReachable : Registry → Prop where
  | init : RegReachable { edges := [], services := [] }
  | step {r r' : Registry} : RegReachable r → RegStep r r' → RegReachable r'

/-- Concrete reachable registry used to instantiate the invariant: one edge
and one service registered by it. -/
def c5reg1 : Registry := (add_edge_node { edges := [], services := [] } 7 "10.0.0.1" 0).1

def c5reg2 : Registry := (register_service c5reg1 0 "KY4OLB-SDR1" "sdr_server" 4535 4536 "rsp1a" 1).1

def c5svc : Service :=
  { id := "KY4OLB-SDR1", service := "sdr_server", ip := "10.0.0.1",
    ctrl_port := 4535, data_port := 4536, caps := "rsp1a", edge_idx := 0, registered := 1 }

/-- Concrete registry for the bye analysis: one edge owning two services
with the same id and different kinds, built by the registry operations. -/
def c6reg : Registry :=
  (register_service
    ((register_service (add_edge_node { edges := [], services := [] } 3 "10.0.0.2" 0).1
        0 "E1" "sdr_server" 1 2 "" 0).1)
    0 "E1" "controller" 1 2 "" 0).1

/-! ### Rendezvous port allocation (lines 427-433 and 608-655) -/

def SPLITTER_PORT_BASE : Nat := 3001
def SPLITTER_PORT_MAX : Nat := 3100
def MAX_SPLITTERS : Nat := 32

/-- allocate_splitter_port (lines 427-433) acting on the cursor
g_next_splitter_port: return the cursor and advance it, wrapping past
SPLITTER_PORT_MAX back to SPLITTER_PORT_BASE. -/
def allocate_splitter_port (next : Nat) : Nat × Nat :=
  (next, if SPLITTER_PORT_MAX < next + 1 then SPLITTER_PORT_BASE else next + 1)

/-- The state of one active splitter slot that handle_rendezvous_accept
initialises (lines 640-651); the socket handles are environmental. -/
structure SplitterConn where
  assigned_port : Nat
  node_id : String
  ip : String
  last_seen : Nat
deriving DecidableEq

/-- handle_rendezvous_accept (lines 608-655), from the point where the
hello has been parsed: find a free slot (reject if all 32 are active),
allocate one port, try to bind it (the oracle bindFails says which ports
fail to bind), and on failure close the connection leaving the slot table
unchanged; on success initialise the slot and report the assigned port. -/
def handle_rendezvous_accept (next : Nat) (splitters : List SplitterConn)
    (bindFails : Nat → Bool) (node_id ip : String) (t : Nat) :
    Nat × List SplitterConn × Option Nat :=
  if MAX_SPLITTERS ≤ splitters.length then (next, splitters, none)
  else
    let a := allocate_splitter_port next
    if bindFails a.1 then (a.2, splitters, none)
    else
      (a.2,
       splitters ++ [{ assigned_port := a.1, node_id := node_id.take 63,
                       ip := ip.take 63, last_seen := t }],
       some a.1)

/-! ### Service list response (build_service_list, lines 958-982) -/

/-- Size of the response buffer in process_discovery_message (line 1015). -/
def SR_RESP_SIZE : Nat := 4096

/-- One pos += snprintf(buf + pos, SR_RESP_SIZE - pos, ...) step: the
buffer keeps at most SR_RESP_SIZE - 1 characters (snprintf reserves the
terminator), pos advances by the full would-be length.  This is exact C
behaviour while pos stays within the buffer; once pos has passed the end
the C program is undefined (snprintf is handed a wrapped size_t) and the
model conservatively freezes the content. -/
def appendBuf (acc : List Char × Nat) (s : List Char) : List Char × Nat :=
  (acc.1 ++ s.take (SR_RESP_SIZE - 1 - acc.1.length), acc.2 + s.length)

def listHeader : List Char := "\x7b\"m\":\"PNSD\",\"v\":1,\"cmd\":\"list\",\"services\":[".data

def listFooter : List Char := "]\x7d\x0a".data

/-- The filter test of the loop (lines 965-967): keep every service when
there is no filter, else keep the matching kind. -/
def keepSvc (filter : Option String) (s : Service) : Bool :=
  match filter with
  | some f => s.service == f
  | none => true

def renderInt (i : Int) : List Char := (toString i).data

/-- One service entry as formatted by the snprintf on lines 972-977. -/
def service_entry (s : Service) : List Char :=
  "\x7b\"id\":\"".data ++ s.id.data ++ "\",\"svc\":\"".data ++ s.service.data ++
  "\",\"ip\":\"".data ++ s.ip.data ++ "\",\"port\":".data ++ renderInt s.ctrl_port ++
  ",\"data\":".data ++ renderInt s.data_port ++ ",\"caps\":\"".data ++ s.caps.data ++
  "\"\x7d".data

/-- The service loop of build_service_list with the first flag. -/
def slist_go (filter : Option String) : List Service → Bool → List Char × Nat → List Char × Nat
  | [], _, acc => appendBuf acc listFooter
  | s :: rest, first, acc =>
    if keepSvc filter s then
      slist_go filter rest false
        (appendBuf (if first then acc else appendBuf acc ",".data) (service_entry s))
    else slist_go filter rest first acc

/-- build_service_list (lines 958-982): returns the buffer content and the
returned pos (the total rendered length). -/
def build_service_list (services : List Service) (filter : Option String) :
    List Char × Nat :=
  slist_go filter services true (appendBuf ([], 0) listHeader)

/-- The text the loop renders after the list header, without any buffer
bound: the comma-joined kept entries and the closing bracket. -/
def slist_tail (filter : Option String) : List Service → Bool → List Char
  | [], _ => listFooter
  | s :: rest, first =>
    if keepSvc filter s then
      (if first then [] else ",".data) ++ service_entry s ++ slist_tail filter rest false
    else slist_tail filter rest first

/-- The full untruncated response text. -/
def slist_full (services : List Service) (filter : Option String) : List Char :=
  listHeader ++ slist_tail filter services true

/-- Comma-separated concatenation, used to state the response shape. -/
def joinComma : List (List Char) → List Char
  | [] => []
  | [e] => e
  | e :: e2 :: rest => e ++ ",".data ++ joinComma (e2 :: rest)

/-- Each element prefixed with a comma, concatenated. -/
def commaCat : List (List Char) → List Char
  | [] => []
  | e :: rest => ",".data ++ e ++ commaCat rest

/-- A wide service entry for the truncation analysis, with a distinct id
per index; every field is within the caps of service_entry_t. -/
def bigSvc (i : Nat) : Service :=
  { id := String.mk (List.replicate (40 + i) 'A'),
    service := String.mk (List.replicate 31 's'),
    ip := String.mk (List.replicate 63 'i'), ctrl_port := 4535, data_port := 4536,
    caps := String.mk (List.replicate 127 'c'), edge_idx := 0, registered := 0 }

/-- Twenty wide services: their rendered list exceeds the 4096-byte
response buffer (128 services are permitted, so this is within the caps). -/
def bigServices : List Service := (List.range 20).map bigSvc

def smallSvcA : Service :=
  { id := "N1", service := "sdr_server", ip := "10.0.0.1", ctrl_port := 4535,
    data_port := 4536, caps := "rsp1a", edge_idx := 0, registered := 0 }

def smallSvcB : Service :=
  { id := "N2", service := "controller", ip := "10.0.0.2", ctrl_port := 1,
    data_port := 2, caps := "", edge_idx := 0, registered := 0 }

/-! ### SDR payload escaping (lines 684-702) and json_unescape (lines 401-421) -/

/-- The escape loop of splitter_send_sdr (lines 691-698).  pos is the
running write position in the 8192-byte frame buffer (it starts at 14,
after the frame prefix); the loop stops once pos reaches
sizeof(buf) - 10 = 8182.  The char comparisons are on signed char, so
bytes 128-255 are negative and fail the printable test, exactly as the
32 <= c < 127 test below.  Quote, backslash, newline and carriage return
are escaped, other printable bytes pass through, the rest are dropped. -/
def escape_sdr : List Nat → Nat → List Nat
  | [], _ => []
  | c :: rest, pos =>
    if pos < 8182 then
      if c = 34 then 92 :: 34 :: escape_sdr rest (pos + 2)
      else if c = 92 then 92 :: 92 :: escape_sdr rest (pos + 2)
      else if c = 10 then 92 :: 110 :: escape_sdr rest (pos + 2)
      else if c = 13 then 92 :: 114 :: escape_sdr rest (pos + 2)
      else if 32 ≤ c ∧ c < 127 then c :: escape_sdr rest (pos + 1)
      else escape_sdr rest pos
    else []

/-- The same escape with no buffer bound, for stating when they agree. -/
def escape_pure : List Nat → List Nat
  | [] => []
  | c :: rest =>
    if c = 34 then 92 :: 34 :: escape_pure rest
    else if c = 92 then 92 :: 92 :: escape_pure rest
    else if c = 10 then 92 :: 110 :: escape_pure rest
    else if c = 13 then 92 :: 114 :: escape_pure rest
    else if 32 ≤ c ∧ c < 127 then c :: escape_pure rest
    else escape_pure rest

/-- k escaped-quote pairs: the escape output for k quote bytes. -/
def qpairs : Nat → List Nat
  | 0 => []
  | k + 1 => 92 :: 34 :: qpairs k

/-- The escape-sequence table of json_unescape (lines 406-413). -/
def unescMap (c : Nat) : Nat :=
  if c = 110 then 10 else if c = 114 then 13 else if c = 116 then 9
  else if c = 34 then 34 else if c = 92 then 92 else c

/-- json_unescape (lines 401-421): a backslash followed by another byte is
replaced by the mapped byte; a trailing lone backslash is copied as is. -/
def json_unescape : List Nat → List Nat
  | [] => []
  | c :: rest =>
    if c = 92 then
      match rest with
      | [] => [92]
      | c2 :: rest2 => unescMap c2 :: json_unescape rest2
    else c :: json_unescape rest

/-- The bytes splitter_send_sdr keeps: printable ASCII, newline, return. -/
def sdrKeep (c : Nat) : Bool := (decide (32 ≤ c) && decide (c < 127)) || c == 10 || c == 13

/-! ### Minimal JSON extraction (lines 372-398) and the discovery dispatcher -/

/-- strstr: the suffix of s just after the first occurrence of pat, or
none when pat does not occur. -/
def afterFirst (pat : List Char) : List Char → Option (List Char)
  | [] => if pat.isEmpty then some [] else none
  | c :: rest =>
    if pat.isPrefixOf (c :: rest) then some ((c :: rest).drop pat.length)
    else afterFirst pat rest

/-- The search pattern of json_get_string: "key":" (line 374). -/
def getPattern (key : String) : List Char :=
  '"' :: key.data ++ '"' :: ':' :: '"' :: []

/-- json_get_string (lines 372-387): locate "key":", take the value up to
the next quote (fail if there is none), copy at most out_size - 1 bytes.
The NUL terminator the C writes is implicit in returning a String. -/
def json_get_string (json : List Char) (key : String) (out_size : Nat) : Option String :=
  match afterFirst (getPattern key) json with
  | none => none
  | some rest =>
    let value := rest.takeWhile (fun c => c != '"')
    if value.length = rest.length then none
    else some (String.mk (value.take (if out_size ≤ value.length then out_size - 1 else value.length)))

/-- The search pattern of json_get_int: "key": (line 392). -/
def intPattern (key : String) : List Char :=
  '"' :: key.data ++ '"' :: ':' :: []

/-- atoi skips leading C whitespace. -/
def skipSpaces (s : List Char) : List Char :=
  s.dropWhile (fun c => c == ' ' || c == '\x09' || c == '\x0a' || c == '\x0b' ||
    c == '\x0c' || c == '\x0d')

/-- The digit-accumulation loop of atoi. -/
def digitsVal : List Char → Nat → Nat
  | [], acc => acc
  | c :: rest, acc => if c.isDigit then digitsVal rest (acc * 10 + (c.toNat - 48)) else acc

/-- json_get_int (lines 390-398): find "key": and apply atoi to the rest;
-1 when the key is absent. -/
def json_get_int (json : List Char) (key : String) : Int :=
  match afterFirst (intPattern key) json with
  | none => -1
  | some rest =>
    match skipSpaces rest with
    | '-' :: ds => - (digitsVal ds 0 : Int)
    | '+' :: ds => (digitsVal ds 0 : Int)
    | ds => (digitsVal ds 0 : Int)

/-- process_discovery_message (lines 985-1021): dispatch one JSON line from
the edge at edge_idx.  The zero-initialised C buffers mean a failed
extraction leaves the empty string, hence the getD "".  The reply for
list and find is the (possibly truncated) buffer content that is sent. -/
def process_discovery_message (reg : Registry) (edge_idx : Nat) (msg : List Char)
    (t : Nat) : Registry × Option (List Char) :=
  let cmd := (json_get_string msg "cmd" 32).getD ""
  if cmd == "helo" then
    let id := (json_get_string msg "id" 64).getD ""
    let svc := (json_get_string msg "svc" 32).getD ""
    let caps := (json_get_string msg "caps" 128).getD ""
    let port := json_get_int msg "port"
    let data := json_get_int msg "data"
    let reg1 := (register_service reg edge_idx id svc port data caps t).1
    ({ reg1 with edges := updateAt reg1.edges edge_idx (fun e => { e with last_seen := t }) },
     none)
  else if cmd == "bye" then
    let id := (json_get_string msg "id" 64).getD ""
    let svc := (json_get_string msg "svc" 32).getD ""
    (unregister_service reg id (if svc.isEmpty then none else some svc), none)
  else if cmd == "list" || cmd == "find" then
    let filter := if cmd == "find" then (json_get_string msg "svc" 32).getD "" else ""
    (reg, some (build_service_list reg.services
      (if filter.isEmpty then none else some filter)).1)
  else (reg, none)

/-- A helo line whose id, svc and caps values exceed the 64-, 32- and
128-byte extraction buffers. -/
def heloLong : List Char :=
  ("\x7b\"cmd\":\"helo\",\"id\":\"" ++ String.mk (List.replicate 70 'a') ++
   "\",\"svc\":\"" ++ String.mk (List.replicate 40 'b') ++
   "\",\"port\":4535,\"data\":4536,\"caps\":\"" ++ String.mk (List.replicate 130 'x') ++
   "\"\x7d").data

/-- Registry with one connected edge, the receiver of heloLong. -/
def c10reg : Registry :=
  { edges := [{ fd := 9, ip := "203.0.113.5", last_seen := 0, service_count := 0 }],
    services := [] }

/-- A JSON line with a 70-character id value, for instantiating the
json_get_string characterisation. -/
def c10json : List Char :=
  '\x7b' :: getPattern "id" ++ List.replicate 70 'a' ++ '"' :: '\x7d' :: []

/-! ### Ring buffer lemmas -/

@[simp] theorem writeByte_capacity (cb : ClientBuffer) (b : Nat) :
    (writeByte cb b).capacity = cb.capacity := by
  unfold writeByte; split <;> rfl

@[simp] theorem writeByte_bytes_sent (cb : ClientBuffer) (b : Nat) :
    (writeByte cb b).bytes_sent = cb.bytes_sent := by
  unfold writeByte; split <;> rfl

theorem writeByte_acct (cb : ClientBuffer) (b : Nat) :
    (writeByte cb b).count + (writeByte cb b).overflows = cb.count + cb.overflows + 1 := by
  unfold writeByte; split <;> simp <;> omega

theorem writeByte_count_full (cb : ClientBuffer) (b : Nat) (h : cb.capacity ≤ cb.count) :
    (writeByte cb b).count = cb.count := by
  unfold writeByte; rw [if_pos h]

theorem writeByte_overflows_full (cb : ClientBuffer) (b : Nat) (h : cb.capacity ≤ cb.count) :
    (writeByte cb b).overflows = cb.overflows + 1 := by
  unfold writeByte; rw [if_pos h]

theorem writeByte_count_lt (cb : ClientBuffer) (b : Nat) (h : ¬ cb.capacity ≤ cb.count) :
    (writeByte cb b).count = cb.count + 1 := by
  unfold writeByte; rw [if_neg h]

theorem writeByte_overflows_lt (cb : ClientBuffer) (b : Nat) (h : ¬ cb.capacity ≤ cb.count) :
    (writeByte cb b).overflows = cb.overflows := by
  unfold writeByte; rw [if_neg h]

theorem wfBuf_writeByte (cb : ClientBuffer) (b : Nat) (hwf : wfBuf cb) :
    wfBuf (writeByte cb b) := by
  obtain ⟨hcc, hri, hwi⟩ := hwf
  have hcap : 0 < cb.capacity := Nat.lt_of_le_of_lt (Nat.zero_le _) hri
  unfold writeByte wfBuf
  by_cases h : cb.capacity ≤ cb.count
  · simp only [if_pos h]
    refine ⟨hcc, Nat.mod_lt _ hcap, ?_⟩
    rw [hwi, Nat.mod_add_mod, Nat.mod_add_mod]
    exact congrArg (· % cb.capacity) (by omega)
  · simp only [if_neg h]
    refine ⟨by omega, hri, ?_⟩
    rw [hwi, Nat.mod_add_mod]
    exact congrArg (· % cb.capacity) (by omega)

@[simp] theorem contents_length (cb : ClientBuffer) : (contents cb).length = cb.count := by
  unfold contents; simp

theorem contents_writeByte_lt (cb : ClientBuffer) (b : Nat) (hwf : wfBuf cb)
    (hlt : cb.count < cb.capacity) :
    contents (writeByte cb b) = contents cb ++ [b] := by
  obtain ⟨hcc, hri, hwi⟩ := hwf
  have hnf : ¬ cb.capacity ≤ cb.count := Nat.not_le.mpr hlt
  unfold writeByte contents
  simp only [if_neg hnf]
  rw [List.range_succ, List.map_append]
  congr 1
  · apply List.map_congr_left
    intro i hi
    have hi' : i < cb.count := List.mem_range.mp hi
    have hne : (cb.read_idx + i) % cb.capacity ≠ cb.write_idx := by
      rw [hwi]
      intro hEq
      have h1 : i % cb.capacity = cb.count % cb.capacity :=
        Nat.ModEq.add_left_cancel' cb.read_idx hEq
      rw [Nat.mod_eq_of_lt (lt_trans hi' hlt), Nat.mod_eq_of_lt hlt] at h1
      omega
    simp only [hne, if_false]
  · simp only [List.map_cons, List.map_nil, List.cons.injEq, and_true]
    rw [← hwi]
    simp

theorem contents_writeByte_full (cb : ClientBuffer) (b : Nat) (hwf : wfBuf cb)
    (hfull : cb.capacity ≤ cb.count) :
    contents (writeByte cb b) = (contents cb).drop 1 ++ [b] := by
  obtain ⟨hcc, hri, hwi⟩ := hwf
  have hce : cb.count = cb.capacity := le_antisymm hcc hfull
  have hcap : 0 < cb.capacity := Nat.lt_of_le_of_lt (Nat.zero_le _) hri
  have hwr : cb.write_idx = cb.read_idx := by
    rw [hwi, hce, Nat.add_mod_right, Nat.mod_eq_of_lt hri]
  obtain ⟨m, hm⟩ : ∃ m, cb.capacity = m + 1 := ⟨cb.capacity - 1, by omega⟩
  have hri' : cb.read_idx < m + 1 := hm ▸ hri
  unfold writeByte contents
  simp only [if_pos hfull]
  rw [hce, hm]
  conv_rhs => rw [List.range_succ_eq_map, List.map_cons, List.drop_one, List.tail_cons,
    List.map_map]
  conv_lhs => rw [List.range_succ, List.map_append]
  congr 1
  · apply List.map_congr_left
    intro i hi
    have hi' : i < m := List.mem_range.mp hi
    have h2 : cb.read_idx + 1 + i = cb.read_idx + (i + 1) := by omega
    have hidx : ((cb.read_idx + 1) % (m + 1) + i) % (m + 1) =
        (cb.read_idx + (i + 1)) % (m + 1) := by
      rw [Nat.mod_add_mod, h2]
    have hne : (cb.read_idx + (i + 1)) % (m + 1) ≠ cb.write_idx := by
      rw [hwr]
      intro hEq
      have h3 : cb.read_idx + (i + 1) ≡ cb.read_idx + 0 [MOD m + 1] := by
        show (cb.read_idx + (i + 1)) % (m + 1) = (cb.read_idx + 0) % (m + 1)
        rw [hEq, Nat.add_zero, Nat.mod_eq_of_lt hri']
      have h4 : i + 1 ≡ 0 [MOD m + 1] := Nat.ModEq.add_left_cancel' cb.read_idx h3
      have h5 : m + 1 ∣ i + 1 := Nat.modEq_zero_iff_dvd.mp h4
      have := Nat.le_of_dvd (by omega) h5
      omega
    simp only [hidx, if_neg hne, Function.comp_apply, Nat.succ_eq_add_one]
  · simp only [List.map_cons, List.map_nil, List.cons.injEq, and_true]
    have h2 : cb.read_idx + 1 + m = cb.read_idx + (m + 1) := by omega
    have hidx : ((cb.read_idx + 1) % (m + 1) + m) % (m + 1) = cb.write_idx := by
      rw [Nat.mod_add_mod, h2, Nat.add_mod_right, Nat.mod_eq_of_lt hri', hwr]
    rw [hidx]
    simp

theorem write_go_snd (bs : List Nat) : ∀ (cb : ClientBuffer) (w : Nat),
    (client_buffer_write_go cb bs w).2 = w + bs.length := by
  induction bs with
  | nil => intro cb w; simp [client_buffer_write_go]
  | cons b rest ih =>
    intro cb w
    rw [client_buffer_write_go, ih]
    simp; omega

theorem write_go_fst (bs : List Nat) : ∀ (cb : ClientBuffer) (w w' : Nat),
    (client_buffer_write_go cb bs w).1 = (client_buffer_write_go cb bs w').1 := by
  induction bs with
  | nil => intro cb w w'; rfl
  | cons b rest ih => intro cb w w'; rw [client_buffer_write_go, client_buffer_write_go, ih _ _ (w' + 1)]

theorem write_fst_cons (cb : ClientBuffer) (b : Nat) (rest : List Nat) :
    (client_buffer_write cb (b :: rest)).1 = (client_buffer_write (writeByte cb b) rest).1 := by
  unfold client_buffer_write
  rw [client_buffer_write_go, write_go_fst rest _ 1 0]

/-- Full characterisation of client_buffer_write on a well-formed buffer:
capacity-bounded count, exact overflow accounting, and the content equal
to the suffix of the old content extended by the input. -/
theorem write_spec (bs : List Nat) : ∀ (cb : ClientBuffer), wfBuf cb →
    wfBuf (client_buffer_write cb bs).1 ∧
    (client_buffer_write cb bs).1.capacity = cb.capacity ∧
    (client_buffer_write cb bs).1.count = min (cb.count + bs.length) cb.capacity ∧
    (client_buffer_write cb bs).1.overflows =
      cb.overflows + (cb.count + bs.length - cb.capacity) ∧
    (client_buffer_write cb bs).1.bytes_sent = cb.bytes_sent ∧
    contents (client_buffer_write cb bs).1 =
      (contents cb ++ bs).drop (cb.count + bs.length - cb.capacity) := by
  induction bs with
  | nil =>
    intro cb hwf
    obtain ⟨hcc, hri, hwi⟩ := hwf
    refine ⟨⟨hcc, hri, hwi⟩, rfl,
      by simp only [client_buffer_write, client_buffer_write_go, List.length_nil]; omega,
      by simp only [client_buffer_write, client_buffer_write_go, List.length_nil]; omega,
      rfl, ?_⟩
    have h0 : cb.count + List.length ([] : List Nat) - cb.capacity = 0 := by
      simp only [List.length_nil]; omega
    rw [h0]
    simp [client_buffer_write, client_buffer_write_go]
  | cons b rest ih =>
    intro cb hwf
    obtain ⟨hcc, hri, hwi⟩ := hwf
    have hcap : 0 < cb.capacity := Nat.lt_of_le_of_lt (Nat.zero_le _) hri
    have hwf' := wfBuf_writeByte cb b ⟨hcc, hri, hwi⟩
    obtain ⟨ih1, ih2, ih3, ih4, ih5, ih6⟩ := ih (writeByte cb b) hwf'
    rw [write_fst_cons] at *
    refine ⟨ih1, by rw [ih2]; simp, ?_, ?_, by rw [ih5]; simp, ?_⟩
    · rw [ih3]
      by_cases h : cb.capacity ≤ cb.count
      · rw [writeByte_count_full cb b h]; simp; omega
      · rw [writeByte_count_lt cb b h]; simp; omega
    · rw [ih4]
      by_cases h : cb.capacity ≤ cb.count
      · rw [writeByte_overflows_full cb b h, writeByte_count_full cb b h]; simp; omega
      · rw [writeByte_overflows_lt cb b h, writeByte_count_lt cb b h]; simp; omega
    · rw [ih6]
      by_cases h : cb.capacity ≤ cb.count
      · rw [contents_writeByte_full cb b ⟨hcc, hri, hwi⟩ h, writeByte_count_full cb b h]
        simp only [writeByte_capacity]
        have hce : cb.count = cb.capacity := le_antisymm hcc h
        have hlen : 0 < (contents cb).length := by simp [contents_length]; omega
        obtain ⟨c0, ctail, hconts⟩ : ∃ c0 ctail, contents cb = c0 :: ctail := by
          cases hq : contents cb with
          | nil => rw [hq] at hlen; simp at hlen
          | cons x xs => exact ⟨x, xs, rfl⟩
        rw [hconts]
        simp only [List.drop_succ_cons, List.drop_zero, List.cons_append, List.append_assoc,
          List.singleton_append]
        have harith : cb.count + (b :: rest).length - cb.capacity =
            (cb.count + rest.length - cb.capacity) + 1 := by
          simp only [List.length_cons]; omega
        rw [harith]
        rfl
      · rw [contents_writeByte_lt cb b ⟨hcc, hri, hwi⟩ (by omega), writeByte_count_lt cb b h]
        simp only [writeByte_capacity, List.append_assoc, List.singleton_append]
        have heq : cb.count + 1 + rest.length - cb.capacity =
            cb.count + (b :: rest).length - cb.capacity := by
          simp only [List.length_cons]; omega
        rw [heq]

theorem readLoop_spec : ∀ (n : Nat) (cb : ClientBuffer), cb.read_idx < cb.capacity →
    readLoop cb n = ((List.range n).map (fun i => cb.data ((cb.read_idx + i) % cb.capacity)),
      { cb with read_idx := (cb.read_idx + n) % cb.capacity }) := by
  intro n
  induction n with
  | zero =>
    intro cb h
    rw [readLoop]
    simp [Nat.mod_eq_of_lt h]
  | succ n ih =>
    intro cb h
    have hcap : 0 < cb.capacity := Nat.lt_of_le_of_lt (Nat.zero_le _) h
    have h1 : (cb.read_idx + 1) % cb.capacity < cb.capacity := Nat.mod_lt _ hcap
    simp only [readLoop]
    rw [ih _ h1]
    refine Prod.ext ?_ ?_
    · dsimp only
      conv_rhs => rw [List.range_succ_eq_map, List.map_cons, List.map_map]
      congr 1
      · exact congrArg cb.data (by rw [Nat.add_zero, Nat.mod_eq_of_lt h])
      · apply List.map_congr_left
        intro i _
        simp only [Function.comp_apply, Nat.mod_add_mod]
        have h2 : cb.read_idx + 1 + i = cb.read_idx + Nat.succ i := by omega
        rw [h2]
    · dsimp only
      rw [Nat.mod_add_mod]
      have h2 : cb.read_idx + 1 + n = cb.read_idx + (n + 1) := by omega
      rw [h2]

/-- Characterisation of client_buffer_read on a well-formed buffer: it
returns the first min(len, count) queued bytes and drops them. -/
theorem read_spec (cb : ClientBuffer) (len : Nat) (hwf : wfBuf cb) :
    (client_buffer_read cb len).1 = (contents cb).take (min len cb.count) ∧
    wfBuf (client_buffer_read cb len).2 ∧
    (client_buffer_read cb len).2.capacity = cb.capacity ∧
    contents (client_buffer_read cb len).2 = (contents cb).drop (min len cb.count) ∧
    (client_buffer_read cb len).2.count = cb.count - min len cb.count ∧
    (client_buffer_read cb len).2.bytes_sent = cb.bytes_sent + min len cb.count ∧
    (client_buffer_read cb len).2.overflows = cb.overflows := by
  obtain ⟨hcc, hri, hwi⟩ := hwf
  have hcap : 0 < cb.capacity := Nat.lt_of_le_of_lt (Nat.zero_le _) hri
  have hto : (if len < cb.count then len else cb.count) = min len cb.count := by
    split <;> omega
  have htc : min len cb.count ≤ cb.count := Nat.min_le_right _ _
  have hread : client_buffer_read cb len =
      ((contents cb).take (min len cb.count),
       { cb with read_idx := (cb.read_idx + min len cb.count) % cb.capacity,
                 count := cb.count - min len cb.count,
                 bytes_sent := cb.bytes_sent + min len cb.count }) := by
    simp only [client_buffer_read]
    rw [hto, readLoop_spec (min len cb.count) cb hri]
    dsimp only
    refine Prod.ext ?_ rfl
    dsimp only
    unfold contents
    rw [← List.map_take, List.take_range, Nat.min_eq_left htc]
  rw [hread]
  dsimp only
  refine ⟨rfl, ⟨by dsimp only; omega, Nat.mod_lt _ hcap, ?_⟩, rfl, ?_, rfl, rfl, rfl⟩
  · dsimp only
    rw [hwi, Nat.mod_add_mod]
    have h2 : cb.read_idx + min len cb.count + (cb.count - min len cb.count) =
        cb.read_idx + cb.count := by omega
    rw [h2]
  · unfold contents
    dsimp only
    set t := min len cb.count with ht
    obtain ⟨u, hu⟩ : ∃ u, cb.count = t + u := ⟨cb.count - t, by omega⟩
    rw [hu, Nat.add_sub_cancel_left, ← List.map_drop, List.range_add,
      List.drop_left' (List.length_range t), List.map_map]
    apply List.map_congr_left
    intro i _
    simp only [Function.comp_apply, Nat.mod_add_mod]
    have h2 : cb.read_idx + t + i = cb.read_idx + (t + i) := by omega
    rw [h2]

/-! ### Conservation accounting (claim C3) -/

theorem readLoop_counters (n : Nat) : ∀ (cb : ClientBuffer),
    (readLoop cb n).2.count = cb.count ∧ (readLoop cb n).2.bytes_sent = cb.bytes_sent ∧
      (readLoop cb n).2.overflows = cb.overflows := by
  induction n with
  | zero => intro cb; exact ⟨rfl, rfl, rfl⟩
  | succ n ih => intro cb; simp only [readLoop]; exact ih _

theorem write_go_acct (bs : List Nat) : ∀ (cb : ClientBuffer) (w : Nat),
    (client_buffer_write_go cb bs w).1.count + (client_buffer_write_go cb bs w).1.overflows =
      cb.count + cb.overflows + bs.length ∧
    (client_buffer_write_go cb bs w).1.bytes_sent = cb.bytes_sent := by
  induction bs with
  | nil => intro cb w; exact ⟨by simp [client_buffer_write_go], rfl⟩
  | cons b rest ih =>
    intro cb w
    rw [client_buffer_write_go]
    obtain ⟨h1, h2⟩ := ih (writeByte cb b) (w + 1)
    refine ⟨?_, by rw [h2, writeByte_bytes_sent]⟩
    rw [h1]
    have h3 := writeByte_acct cb b
    simp only [List.length_cons]
    omega

theorem read_acct (cb : ClientBuffer) (len : Nat) :
    (client_buffer_read cb len).2.count + (client_buffer_read cb len).2.bytes_sent =
      cb.count + cb.bytes_sent ∧
    (client_buffer_read cb len).2.overflows = cb.overflows := by
  simp only [client_buffer_read]
  obtain ⟨h1, h2, h3⟩ := readLoop_counters (if len < cb.count then len else cb.count) cb
  rw [h1, h2]
  refine ⟨?_, h3⟩
  have h4 : (if len < cb.count then len else cb.count) ≤ cb.count := by split <;> omega
  omega

theorem runBufOps_acct (ops : List BufOp) : ∀ (cb : ClientBuffer),
    (runBufOps cb ops).count + (runBufOps cb ops).bytes_sent +
      (runBufOps cb ops).overflows =
      cb.count + cb.bytes_sent + cb.overflows + totalWritten ops := by
  induction ops with
  | nil => intro cb; simp [runBufOps, totalWritten]
  | cons op rest ih =>
    intro cb
    simp only [runBufOps, List.foldl_cons] at *
    rw [ih (applyBufOp cb op)]
    cases op with
    | write bs =>
      obtain ⟨h1, h2⟩ := write_go_acct bs cb 0
      simp only [applyBufOp, totalWritten, client_buffer_write] at *
      omega
    | read len =>
      obtain ⟨h1, h2⟩ := read_acct cb len
      simp only [applyBufOp, totalWritten] at *
      omega

/-- C3: for every ring buffer started from the freshly created state and
every finite sequence of write and read operations, with W the total bytes
passed to write and the bytes_sent counter holding the total bytes returned
by read, count + bytes_sent = W - overflows holds after every operation
(every prefix of an operation sequence is itself an operation sequence). -/
theorem c3_ring_conservation (capacity : Nat) (ops : List BufOp) :
    (runBufOps (client_buffer_create capacity) ops).count +
      (runBufOps (client_buffer_create capacity) ops).bytes_sent =
      totalWritten ops - (runBufOps (client_buffer_create capacity) ops).overflows ∧
    (runBufOps (client_buffer_create capacity) ops).overflows ≤ totalWritten ops := by
  have h := runBufOps_acct ops (client_buffer_create capacity)
  simp only [client_buffer_create] at h ⊢
  omega

/-! ### Claim C4: write overflow accounting -/

/-- C4 counterexample: writing 4 bytes onto a capacity-4 ring already
holding 2 discards exactly 2 oldest bytes and increments overflows by 2,
but the claimed count (written - capacity - old_count) is 4 - 4 - 2 = -2,
which is not 2. -/
theorem c4_counterexample :
    c4buf1.count = 2 ∧ c4buf1.overflows = 0 ∧ c4buf2.overflows = 2 ∧
    contents c4buf2 = [7, 8, 9, 10] ∧
    ¬ ((c4buf2.overflows : Int) - (c4buf1.overflows : Int) = 4 - 4 - 2) := by
  decide

/-- C4 (amended): a write of n bytes onto a well-formed ring holding
old_count bytes with capacity C stores all n input bytes and never fails,
leaves count = min (old_count + n) C, which never exceeds C, and discards
exactly (old_count + n - C) oldest bytes (zero when there is no overflow),
incrementing the overflow counter by the number of bytes discarded. -/
theorem c4_write_overflow (cb : ClientBuffer) (bs : List Nat) (hwf : wfBuf cb) :
    (client_buffer_write cb bs).2 = bs.length ∧
    (client_buffer_write cb bs).1.count = min (cb.count + bs.length) cb.capacity ∧
    (client_buffer_write cb bs).1.count ≤ cb.capacity ∧
    (client_buffer_write cb bs).1.overflows =
      cb.overflows + (cb.count + bs.length - cb.capacity) ∧
    contents (client_buffer_write cb bs).1 =
      (contents cb ++ bs).drop (cb.count + bs.length - cb.capacity) := by
  obtain ⟨h1, h2, h3, h4, h5, h6⟩ := write_spec bs cb hwf
  refine ⟨by simpa using write_go_snd bs cb 0, h3, by rw [h3]; omega, h4, h6⟩

theorem c4_write_overflow_witness :
    wfBuf c4buf1 ∧
    ((client_buffer_write c4buf1 [7, 8, 9, 10]).2 = [7, 8, 9, 10].length ∧
     (client_buffer_write c4buf1 [7, 8, 9, 10]).1.count =
       min (c4buf1.count + [7, 8, 9, 10].length) c4buf1.capacity ∧
     (client_buffer_write c4buf1 [7, 8, 9, 10]).1.count ≤ c4buf1.capacity ∧
     (client_buffer_write c4buf1 [7, 8, 9, 10]).1.overflows =
       c4buf1.overflows + (c4buf1.count + [7, 8, 9, 10].length - c4buf1.capacity) ∧
     contents (client_buffer_write c4buf1 [7, 8, 9, 10]).1 =
       (contents c4buf1 ++ [7, 8, 9, 10]).drop
         (c4buf1.count + [7, 8, 9, 10].length - c4buf1.capacity)) :=
  ⟨by decide, c4_write_overflow c4buf1 [7, 8, 9, 10] (by decide)⟩

/-! ### Claims C1 and C2: the drain step -/

/-- C1: the claim that a consumer never receives a payload byte before all
16 stream-header bytes is violated by the code: when the header send
would-blocks, client_list_send_pending falls through to the payload send,
so the socket receives payload with header_sent still false, and the
header only arrives afterwards — the first 16 delivered bytes are not the
configured header. -/
theorem c1_payload_before_header :
    c1client1.delivered = [1, 2, 3] ∧ c1client1.header_sent = false ∧
    c1client2.delivered = [1, 2, 3] ++ mkStreamHeader 50000 ∧
    c1client2.delivered.take 16 ≠ mkStreamHeader 50000 := by
  decide

/-- C2: when the data send would-blocks, the drain step puts the just-read
chunk back with client_buffer_write, which appends it at the tail; with
more than 8192 bytes queued the ring content afterwards is the remainder
followed by the chunk, not the original FIFO order. -/
theorem c2_wouldblock_breaks_fifo (c : Client) (header : List Nat)
    (hwf : wfBuf c.buffer) (hsent : c.header_sent = true) (halive : c.alive = true)
    (hbig : 8192 < c.buffer.count) :
    contents (drain_client header SendRes.wouldBlock SendRes.wouldBlock c).buffer =
      (contents c.buffer).drop 8192 ++ (contents c.buffer).take 8192 := by
  obtain ⟨hcc, hri, hwi⟩ := hwf
  have hmin : min 8192 c.buffer.count = 8192 := Nat.min_eq_left (by omega)
  obtain ⟨hr1, hrwf, hrcap, hrcont, hrcount, hrbs, hrov⟩ :=
    read_spec c.buffer 8192 ⟨hcc, hri, hwi⟩
  rw [hmin] at hr1 hrcont hrcount
  obtain ⟨hw1, hw2, hw3, hw4, hw5, hw6⟩ :=
    write_spec ((client_buffer_read c.buffer 8192).1) ((client_buffer_read c.buffer 8192).2) hrwf
  simp only [drain_client, hsent, if_true, halive, Bool.true_eq_false, if_false]
  rw [if_pos (show 0 < c.buffer.count by omega),
    if_neg (show ¬ c.buffer.count < 8192 by omega)]
  rw [hw6, hrcont, hrcount, hrcap, hr1]
  have hlen : ((contents c.buffer).take 8192).length = 8192 := by
    rw [List.length_take, contents_length]; omega
  rw [hlen]
  have hz : c.buffer.count - 8192 + 8192 - c.buffer.capacity = 0 := by omega
  rw [hz, List.drop_zero]

/-- The scrambled content really differs from the original: byte 0 of the
queue is 1 while byte 8192 is 2, and the put-back rotates byte 8192 to the
front. -/
theorem c2buf_scramble_differs :
    (contents c2buf).drop 8192 ++ (contents c2buf).take 8192 ≠ contents c2buf := by
  have hc : contents c2buf =
      (List.range 8193).map (fun i => c2buf.data ((0 + i) % 1500000)) := rfl
  intro h
  have h0 : (contents c2buf)[0]? = some 1 := by
    rw [hc, List.getElem?_map, List.getElem?_range (by omega : (0:Nat) < 8193)]
    rfl
  have h8192 : (contents c2buf)[8192]? = some 2 := by
    rw [hc, List.getElem?_map, List.getElem?_range (by omega : (8192:Nat) < 8193)]
    rfl
  have hlen : ((contents c2buf).drop 8192).length = 1 := by
    rw [List.length_drop, contents_length]
    rfl
  have hq : ((contents c2buf).drop 8192 ++ (contents c2buf).take 8192)[0]? =
      (contents c2buf)[8192]? := by
    rw [List.getElem?_append, hlen, if_pos (by omega), List.getElem?_drop]
  rw [h, h0, h8192] at hq
  exact absurd hq (by decide)

theorem c2_wouldblock_breaks_fifo_witness :
    wfBuf c2client.buffer ∧ c2client.header_sent = true ∧ c2client.alive = true ∧
    8192 < c2client.buffer.count ∧
    contents (drain_client [] SendRes.wouldBlock SendRes.wouldBlock c2client).buffer =
      (contents c2client.buffer).drop 8192 ++ (contents c2client.buffer).take 8192 ∧
    (contents c2client.buffer).drop 8192 ++ (contents c2client.buffer).take 8192 ≠
      contents c2client.buffer :=
  ⟨by decide, rfl, rfl, by decide,
   c2_wouldblock_breaks_fifo c2client [] (by decide) rfl rfl (by decide),
   c2buf_scramble_differs⟩

/-! ### Registry lemmas and claims C5, C6 -/

theorem length_updateAt {α : Type} : ∀ (l : List α) (i : Nat) (f : α → α),
    (updateAt l i f).length = l.length := by
  intro l
  induction l with
  | nil => intro i f; rfl
  | cons a t ih =>
    intro i f
    cases i with
    | zero => rfl
    | succ n => simp only [updateAt, List.length_cons, ih]

theorem mem_updateAt {α : Type} : ∀ (l : List α) (i : Nat) (f : α → α) (x : α),
    x ∈ updateAt l i f → x ∈ l ∨ ∃ a ∈ l, x = f a := by
  intro l
  induction l with
  | nil => intro i f x hx; simp [updateAt] at hx
  | cons a t ih =>
    intro i f x hx
    cases i with
    | zero =>
      rw [updateAt] at hx
      rcases List.mem_cons.mp hx with h | h
      · exact Or.inr ⟨a, by simp, h⟩
      · exact Or.inl (List.mem_cons_of_mem _ h)
    | succ n =>
      rw [updateAt] at hx
      rcases List.mem_cons.mp hx with h | h
      · exact Or.inl (by simp [h])
      · rcases ih n f x h with h2 | ⟨b, hb, hxb⟩
        · exact Or.inl (List.mem_cons_of_mem _ h2)
        · exact Or.inr ⟨b, List.mem_cons_of_mem _ hb, hxb⟩

theorem unregister_go_mem (id : String) (svc : Option String) :
    ∀ (l : List Service) (edges : List EdgeNode),
    (∀ x ∈ (unregister_go id svc l edges).1, x ∈ l) ∧
    (unregister_go id svc l edges).2.length = edges.length := by
  intro l
  induction l with
  | nil =>
    intro edges
    exact ⟨fun x hx => by simp [unregister_go] at hx, rfl⟩
  | cons s rest ih =>
    intro edges
    rw [unregister_go]
    by_cases hm : svcMatch id svc s = true
    · simp only [if_pos hm]
      refine ⟨fun x hx => List.mem_cons_of_mem _ hx, ?_⟩
      split
      · rw [length_updateAt]
      · rfl
    · simp only [if_neg hm]
      obtain ⟨h1, h2⟩ := ih edges
      refine ⟨fun x hx => ?_, h2⟩
      rcases List.mem_cons.mp hx with h | h
      · simp [h]
      · exact List.mem_cons_of_mem _ (h1 x h)

/-- The key step lemma: every registry operation preserves the absence of
dangling edge indices. -/
theorem regStep_inv {r r' : Registry} (hs : RegStep r r')
    (hinv : ∀ s ∈ r.services, s.edge_idx < r.edges.length) :
    ∀ s ∈ r'.services, s.edge_idx < r'.edges.length := by
  cases hs with
  | addEdge fd ip t =>
    intro s hs'
    unfold add_edge_node at hs' ⊢
    rcases hfind : r.edges.findIdx? (fun e => e.fd == fd) with _ | idx
    · rw [hfind] at hs' ⊢
      by_cases hcap : MAX_EDGE_NODES ≤ r.edges.length
      · simp only [if_pos hcap] at hs' ⊢
        exact hinv s hs'
      · simp only [if_neg hcap] at hs' ⊢
        have := hinv s hs'
        simp only [List.length_append, List.length_cons, List.length_nil]
        omega
    · rw [hfind] at hs' ⊢
      rw [length_updateAt]
      exact hinv s hs'
  | register edge_idx id svc cp dp caps t h =>
    intro s hs'
    unfold register_service at hs' ⊢
    rcases hfind : r.services.findIdx? (fun x => x.id == id && x.service == svc) with _ | i
    · rw [hfind] at hs' ⊢
      by_cases hcap : MAX_SERVICES ≤ r.services.length
      · simp only [if_pos hcap] at hs' ⊢
        exact hinv s hs'
      · simp only [if_neg hcap] at hs' ⊢
        rw [length_updateAt]
        rcases List.mem_append.mp hs' with h1 | h1
        · exact hinv s h1
        · have : s.edge_idx = edge_idx := by
            rcases List.mem_singleton.mp h1 with rfl
            rfl
          omega
    · rw [hfind] at hs' ⊢
      rcases mem_updateAt _ _ _ _ hs' with h1 | ⟨a, ha, hxa⟩
      · exact hinv s h1
      · have : s.edge_idx = a.edge_idx := by rw [hxa]
        rw [this]
        exact hinv a ha
  | unregister id svc =>
    intro s hs'
    unfold unregister_service at hs' ⊢
    obtain ⟨h1, h2⟩ := unregister_go_mem id svc r.services r.edges
    rw [h2]
    exact hinv s (h1 s hs')
  | removeEdge idx =>
    intro s hs'
    unfold remove_edge_node at hs' ⊢
    by_cases hidx : idx < r.edges.length
    · simp only [if_pos hidx] at hs' ⊢
      obtain ⟨s0, hs0, hmap⟩ := List.mem_map.mp hs'
      obtain ⟨hs0m, hs0ne⟩ := List.mem_filter.mp hs0
      have hne : s0.edge_idx ≠ idx := by simpa using hs0ne
      have hlt := hinv s0 hs0m
      rw [List.length_eraseIdx, if_pos hidx]
      by_cases hgt : idx < s0.edge_idx
      · rw [if_pos hgt] at hmap
        rw [← hmap]
        show s0.edge_idx - 1 < r.edges.length - 1
        omega
      · rw [if_neg hgt] at hmap
        rw [← hmap]
        omega
    · simp only [if_neg hidx] at hs' ⊢
      exact hinv s hs'

theorem regReachable_inv : ∀ {reg : Registry}, RegReachable reg →
    ∀ s ∈ reg.services, s.edge_idx < reg.edges.length := by
  intro reg h
  induction h with
  | init => intro s hs; simp at hs
  | step _ hs ih => exact regStep_inv hs ih

/-- C5: in every registry state reachable through add_edge_node,
register_service (always called with the index of the live connected
edge), unregister_service and remove_edge_node, every service edge_idx
lies below edge_count and hence names a present edge; and remove_edge_node
in one step drops exactly the services of the removed edge and decrements
the edge_idx of services owned by higher-indexed edges. -/
theorem c5_no_dangling_index :
    (∀ reg, RegReachable reg → ∀ s ∈ reg.services, s.edge_idx < reg.edges.length) ∧
    (∀ reg idx, idx < reg.edges.length →
      (remove_edge_node reg idx).services =
        (reg.services.filter (fun s => s.edge_idx != idx)).map
          (fun s => if idx < s.edge_idx then { s with edge_idx := s.edge_idx - 1 } else s) ∧
      (remove_edge_node reg idx).edges = reg.edges.eraseIdx idx) :=
  ⟨fun _ h => regReachable_inv h,
   fun reg idx h => by rw [remove_edge_node, if_pos h]; exact ⟨rfl, rfl⟩⟩

theorem c5_no_dangling_index_witness :
    RegReachable c5reg2 ∧ c5svc ∈ c5reg2.services ∧
    c5svc.edge_idx < c5reg2.edges.length ∧ 0 < c5reg2.edges.length ∧
    ((remove_edge_node c5reg2 0).services =
      (c5reg2.services.filter (fun s => s.edge_idx != 0)).map
        (fun s => if 0 < s.edge_idx then { s with edge_idx := s.edge_idx - 1 } else s) ∧
     (remove_edge_node c5reg2 0).edges = c5reg2.edges.eraseIdx 0) := by
  have hreach : RegReachable c5reg2 :=
    RegReachable.step
      (RegReachable.step RegReachable.init
        (RegStep.addEdge { edges := [], services := [] } 7 "10.0.0.1" 0))
      (RegStep.register c5reg1 0 "KY4OLB-SDR1" "sdr_server" 4535 4536 "rsp1a" 1 (by decide))
  refine ⟨hreach, by decide, ?_, by decide, c5_no_dangling_index.2 c5reg2 0 (by decide)⟩
  exact c5_no_dangling_index.1 c5reg2 hreach c5svc (by decide)

/-- C6 counterexample: an edge owning two services with the same id
"E1" and kinds sdr_server and controller; bye with id only removes one of
them — the first — not every matching service. -/
theorem c6_counterexample :
    c6reg.services.length = 2 ∧ (∀ s ∈ c6reg.services, s.id = "E1") ∧
    (unregister_service c6reg "E1" none).services.length = 1 ∧
    (unregister_service c6reg "E1" none).services.map Service.id = ["E1"] := by
  decide

theorem unregister_go_eq (id : String) (svc : Option String) :
    ∀ (l : List Service) (edges : List EdgeNode),
    unregister_go id svc l edges =
      (l.eraseP (svcMatch id svc),
       match l.find? (svcMatch id svc) with
       | none => edges
       | some s =>
         if s.edge_idx < edges.length then
           updateAt edges s.edge_idx (fun e => { e with service_count := e.service_count - 1 })
         else edges) := by
  intro l
  induction l with
  | nil => intro edges; rfl
  | cons s rest ih =>
    intro edges
    rw [unregister_go]
    by_cases hm : svcMatch id svc s = true
    · rw [if_pos hm]
      simp only [List.eraseP_cons, List.find?_cons, hm, cond_true]
    · rw [if_neg hm]
      have hm' : svcMatch id svc s = false := by simpa using hm
      simp only [ih edges, List.eraseP_cons, List.find?_cons, hm', cond_false]

/-- C6 (amended): processing bye removes only the first service matching
the id (and the kind, when one is given) — at most one entry — and
decrements the service counter of that service's owning edge when its
edge_idx is in range; all other services are retained. -/
theorem c6_bye_first_match (reg : Registry) (id : String) (svc : Option String) :
    (unregister_service reg id svc).services = reg.services.eraseP (svcMatch id svc) ∧
    (unregister_service reg id svc).edges =
      (match reg.services.find? (svcMatch id svc) with
       | none => reg.edges
       | some s =>
         if s.edge_idx < reg.edges.length then
           updateAt reg.edges s.edge_idx (fun e => { e with service_count := e.service_count - 1 })
         else reg.edges) := by
  unfold unregister_service
  rw [unregister_go_eq]
  exact ⟨rfl, rfl⟩

/-! ### Claim C7: rendezvous port allocation -/

/-- C7 counterexample: with the cursor at 3001 and port 3001 failing to
bind (it is currently bound), the hello is dropped (no port assigned, no
slot created) even though port 3002 is free — the code neither skips bound
ports nor retries nor reports pool exhaustion, contradicting the claim
that allocation retries until success or the pool is exhausted. -/
theorem c7_counterexample :
    handle_rendezvous_accept 3001 [] (fun p => p == 3001) "SPL-1" "1.2.3.4" 0 =
      (3002, [], none) ∧
    (fun p => p == 3001) 3002 = false := by
  exact ⟨by decide, rfl⟩

/-- C7 (amended): the port offered to a rendezvous hello is exactly the
cursor value (no skipping of bound ports); the cursor steps by one,
wrapping from SPLITTER_PORT_MAX to SPLITTER_PORT_BASE and staying in
range; if the bind of that one port fails the request fails with no retry
and no slot state left behind; on any failure the slot table is
unchanged. -/
theorem c7_port_allocation (next : Nat) (splitters : List SplitterConn)
    (bindFails : Nat → Bool) (nid ip : String) (t : Nat)
    (h1 : SPLITTER_PORT_BASE ≤ next) (h2 : next ≤ SPLITTER_PORT_MAX) :
    ((handle_rendezvous_accept next splitters bindFails nid ip t).2.2 = none →
      (handle_rendezvous_accept next splitters bindFails nid ip t).2.1 = splitters) ∧
    (splitters.length < MAX_SPLITTERS → bindFails next = false →
      (handle_rendezvous_accept next splitters bindFails nid ip t).2.2 = some next) ∧
    (splitters.length < MAX_SPLITTERS → bindFails next = true →
      (handle_rendezvous_accept next splitters bindFails nid ip t).2.2 = none ∧
      (handle_rendezvous_accept next splitters bindFails nid ip t).2.1 = splitters) ∧
    SPLITTER_PORT_BASE ≤ (handle_rendezvous_accept next splitters bindFails nid ip t).1 ∧
    (handle_rendezvous_accept next splitters bindFails nid ip t).1 ≤ SPLITTER_PORT_MAX := by
  have hwrap : SPLITTER_PORT_BASE ≤
      (if SPLITTER_PORT_MAX < next + 1 then SPLITTER_PORT_BASE else next + 1) ∧
      (if SPLITTER_PORT_MAX < next + 1 then SPLITTER_PORT_BASE else next + 1) ≤
        SPLITTER_PORT_MAX := by
    unfold SPLITTER_PORT_BASE SPLITTER_PORT_MAX at *
    split <;> omega
  by_cases hc : MAX_SPLITTERS ≤ splitters.length
  · have he : handle_rendezvous_accept next splitters bindFails nid ip t =
        (next, splitters, none) := by
      unfold handle_rendezvous_accept
      rw [if_pos hc]
    rw [he]
    exact ⟨fun _ => rfl, fun h => absurd h (by omega), fun h => absurd h (by omega), h1, h2⟩
  · by_cases hb : bindFails next = true
    · have he : handle_rendezvous_accept next splitters bindFails nid ip t =
          ((if SPLITTER_PORT_MAX < next + 1 then SPLITTER_PORT_BASE else next + 1),
           splitters, none) := by
        unfold handle_rendezvous_accept allocate_splitter_port
        rw [if_neg hc]
        dsimp only
        rw [if_pos hb]
      rw [he]
      exact ⟨fun _ => rfl, fun _ hf => by simp [hb] at hf, fun _ _ => ⟨rfl, rfl⟩,
        hwrap.1, hwrap.2⟩
    · have hb' : bindFails next = false := by simpa using hb
      have he : handle_rendezvous_accept next splitters bindFails nid ip t =
          ((if SPLITTER_PORT_MAX < next + 1 then SPLITTER_PORT_BASE else next + 1),
           splitters ++ [{ assigned_port := next, node_id := nid.take 63,
                           ip := ip.take 63, last_seen := t }],
           some next) := by
        unfold handle_rendezvous_accept allocate_splitter_port
        rw [if_neg hc]
        dsimp only
        rw [if_neg (by simp [hb'])]
      rw [he]
      exact ⟨fun hcon => by simp at hcon, fun _ _ => rfl, fun _ hf => by simp [hb'] at hf,
        hwrap.1, hwrap.2⟩

theorem c7_port_allocation_witness :
    SPLITTER_PORT_BASE ≤ 3100 ∧ 3100 ≤ SPLITTER_PORT_MAX ∧
    (((handle_rendezvous_accept 3100 [] (fun _ => false) "SPL-1" "1.2.3.4" 0).2.2 = none →
       (handle_rendezvous_accept 3100 [] (fun _ => false) "SPL-1" "1.2.3.4" 0).2.1 = []) ∧
     (List.length ([] : List SplitterConn) < MAX_SPLITTERS → (fun _ => false) 3100 = false →
       (handle_rendezvous_accept 3100 [] (fun _ => false) "SPL-1" "1.2.3.4" 0).2.2 = some 3100) ∧
     (List.length ([] : List SplitterConn) < MAX_SPLITTERS → (fun _ => false) 3100 = true →
       (handle_rendezvous_accept 3100 [] (fun _ => false) "SPL-1" "1.2.3.4" 0).2.2 = none ∧
       (handle_rendezvous_accept 3100 [] (fun _ => false) "SPL-1" "1.2.3.4" 0).2.1 = []) ∧
     SPLITTER_PORT_BASE ≤ (handle_rendezvous_accept 3100 [] (fun _ => false) "SPL-1" "1.2.3.4" 0).1 ∧
     (handle_rendezvous_accept 3100 [] (fun _ => false) "SPL-1" "1.2.3.4" 0).1 ≤ SPLITTER_PORT_MAX) :=
  ⟨by decide, by decide,
   c7_port_allocation 3100 [] (fun _ => false) "SPL-1" "1.2.3.4" 0 (by decide) (by decide)⟩

/-! ### Claim C8: the list/find reply -/

theorem appendBuf_spec (full s : List Char) :
    appendBuf (full.take (SR_RESP_SIZE - 1), full.length) s =
      ((full ++ s).take (SR_RESP_SIZE - 1), (full ++ s).length) := by
  unfold appendBuf
  refine Prod.ext ?_ (by simp [List.length_append])
  dsimp only
  rw [List.take_append_eq_append_take]
  congr 1
  rw [List.length_take]
  congr 1
  omega

theorem slist_go_spec (filter : Option String) : ∀ (l : List Service) (first : Bool)
    (full : List Char),
    slist_go filter l first (full.take (SR_RESP_SIZE - 1), full.length) =
      ((full ++ slist_tail filter l first).take (SR_RESP_SIZE - 1),
       (full ++ slist_tail filter l first).length) := by
  intro l
  induction l with
  | nil =>
    intro first full
    rw [slist_go, slist_tail]
    exact appendBuf_spec full listFooter
  | cons s rest ih =>
    intro first full
    rw [slist_go, slist_tail]
    by_cases hk : keepSvc filter s = true
    · rw [if_pos hk, if_pos hk]
      cases first with
      | true =>
        rw [if_pos rfl, if_pos rfl]
        rw [appendBuf_spec full (service_entry s), ih false (full ++ service_entry s)]
        simp [List.append_assoc]
      | false =>
        rw [if_neg (by simp), if_neg (by simp)]
        rw [appendBuf_spec full (",".data)]
        rw [appendBuf_spec (full ++ ",".data) (service_entry s)]
        rw [ih false ((full ++ ",".data) ++ service_entry s)]
        simp [List.append_assoc]
    · rw [if_neg hk, if_neg hk]
      exact ih first full

/-- The build is always the untruncated response text cut to the 4095
characters the buffer can hold, with pos the full rendered length. -/
theorem build_service_list_trunc (services : List Service) (filter : Option String) :
    build_service_list services filter =
      ((slist_full services filter).take (SR_RESP_SIZE - 1),
       (slist_full services filter).length) := by
  unfold build_service_list slist_full
  have h0 : appendBuf ([], 0) listHeader =
      (listHeader.take (SR_RESP_SIZE - 1), listHeader.length) := by
    unfold appendBuf
    simp
  rw [h0]
  have h1 : listHeader.take (SR_RESP_SIZE - 1) = listHeader := by decide
  conv_lhs => rw [← h1]
  exact slist_go_spec filter services true listHeader

theorem joinComma_cons : ∀ (es : List (List Char)) (e : List Char),
    joinComma (e :: es) = e ++ commaCat es := by
  intro es
  induction es with
  | nil => intro e; rw [joinComma, commaCat, List.append_nil]
  | cons e2 rest ih =>
    intro e
    rw [joinComma, commaCat, ih e2]
    simp [List.append_assoc]

theorem slist_tail_false (filter : Option String) : ∀ (l : List Service),
    slist_tail filter l false =
      commaCat ((l.filter (keepSvc filter)).map service_entry) ++ listFooter := by
  intro l
  induction l with
  | nil => rfl
  | cons s rest ih =>
    rw [slist_tail, List.filter_cons]
    by_cases hk : keepSvc filter s = true
    · simp only [if_pos hk, List.map_cons]
      rw [commaCat, ih]
      simp [List.append_assoc]
    · simp only [if_neg hk]
      exact ih

theorem slist_tail_true (filter : Option String) : ∀ (l : List Service),
    slist_tail filter l true =
      joinComma ((l.filter (keepSvc filter)).map service_entry) ++ listFooter := by
  intro l
  induction l with
  | nil => rfl
  | cons s rest ih =>
    rw [slist_tail, List.filter_cons]
    by_cases hk : keepSvc filter s = true
    · simp only [if_pos hk, List.map_cons, if_pos rfl]
      rw [slist_tail_false, joinComma_cons]
      simp [List.append_assoc]
    · simp only [if_neg hk]
      exact ih

/-- C8 (amended): provided the rendered reply fits the 4096-byte response
buffer (at most 4095 characters), the reply is the single JSON line
listHeader ++ entries ++ "]}\\n" whose entries are exactly one per service
passing the filter, comma-joined in registry order, each rendering that
service id, svc, ip, port, data and caps; longer replies are truncated to
the buffer. -/
theorem c8_service_list (services : List Service) (filter : Option String)
    (hfit : (slist_full services filter).length ≤ SR_RESP_SIZE - 1) :
    (build_service_list services filter).1 =
      listHeader ++ joinComma ((services.filter (keepSvc filter)).map service_entry) ++
        listFooter ∧
    (build_service_list services filter).2 = (slist_full services filter).length := by
  rw [build_service_list_trunc]
  refine ⟨?_, rfl⟩
  dsimp only
  rw [List.take_of_length_le hfit]
  unfold slist_full
  rw [slist_tail_true]
  simp [List.append_assoc]

theorem c8_service_list_witness :
    (slist_full [smallSvcA, smallSvcB] none).length ≤ SR_RESP_SIZE - 1 ∧
    ((build_service_list [smallSvcA, smallSvcB] none).1 =
      listHeader ++
        joinComma ((([smallSvcA, smallSvcB]).filter (keepSvc none)).map service_entry) ++
        listFooter ∧
     (build_service_list [smallSvcA, smallSvcB] none).2 =
       (slist_full [smallSvcA, smallSvcB] none).length) :=
  ⟨by decide, c8_service_list [smallSvcA, smallSvcB] none (by decide)⟩

theorem service_entry_length_ge (s : Service) :
    s.id.data.length + s.service.data.length + s.ip.data.length + s.caps.data.length ≤
      (service_entry s).length := by
  unfold service_entry
  simp only [List.length_append]
  omega

theorem commaCat_length_ge : ∀ (es : List (List Char)),
    (∀ e ∈ es, 250 ≤ e.length) → 250 * es.length ≤ (commaCat es).length := by
  intro es
  induction es with
  | nil => intro h; simp [commaCat]
  | cons e rest ih =>
    intro h
    rw [commaCat]
    simp only [List.length_append, List.length_cons]
    have hl : 250 ≤ e.length := h e (by simp)
    have h2 := ih (fun x hx => h x (by simp [hx]))
    omega

theorem joinComma_length_ge (es : List (List Char))
    (h : ∀ e ∈ es, 250 ≤ e.length) : 250 * es.length ≤ (joinComma es).length := by
  cases es with
  | nil => simp [joinComma]
  | cons e rest =>
    rw [joinComma_cons, List.length_append]
    have hl : 250 ≤ e.length := h e (by simp)
    have h2 := commaCat_length_ge rest (fun x hx => h x (by simp [hx]))
    simp only [List.length_cons]
    omega

theorem bigSvc_entry_length (i : Nat) : 250 ≤ (service_entry (bigSvc i)).length := by
  have h := service_entry_length_ge (bigSvc i)
  have h1 : (bigSvc i).id.data.length = 40 + i := List.length_replicate _ _
  have h2 : (bigSvc i).service.data.length = 31 := List.length_replicate _ _
  have h3 : (bigSvc i).ip.data.length = 63 := List.length_replicate _ _
  have h4 : (bigSvc i).caps.data.length = 127 := List.length_replicate _ _
  omega

/-- C8 counterexample: a registry of 20 wide services (all within the
field caps, well below the 128-service limit) renders to more than 4095
characters; the buffer content sent as the reply is cut at 4095
characters and is not the full single-line JSON listing every service. -/
theorem c8_counterexample :
    SR_RESP_SIZE - 1 < (build_service_list bigServices none).2 ∧
    (build_service_list bigServices none).1.length = SR_RESP_SIZE - 1 ∧
    (build_service_list bigServices none).1 ≠ slist_full bigServices none := by
  have hfe : bigServices.filter (keepSvc none) = bigServices :=
    List.filter_eq_self.mpr (fun s _ => rfl)
  have hes : ((bigServices.filter (keepSvc none)).map service_entry).length = 20 := by
    rw [hfe, List.length_map]
    unfold bigServices
    rw [List.length_map, List.length_range]
  have hge : ∀ e ∈ (bigServices.filter (keepSvc none)).map service_entry, 250 ≤ e.length := by
    intro e he
    obtain ⟨s, hs, hse⟩ := List.mem_map.mp he
    rw [hfe] at hs
    unfold bigServices at hs
    obtain ⟨i, _, his⟩ := List.mem_map.mp hs
    rw [← hse, ← his]
    exact bigSvc_entry_length i
  have hjc := joinComma_length_ge _ hge
  rw [hes] at hjc
  have hlen : SR_RESP_SIZE - 1 < (slist_full bigServices none).length := by
    unfold slist_full
    rw [slist_tail_true, List.length_append, List.length_append]
    unfold SR_RESP_SIZE
    omega
  rw [build_service_list_trunc]
  refine ⟨hlen, ?_, ?_⟩
  · dsimp only
    rw [List.length_take]
    omega
  · dsimp only
    intro h
    have h2 := congrArg List.length h
    rw [List.length_take] at h2
    omega

/-! ### Claim C9: SDR payload escape and unescape -/

theorem escape_sdr_34_exact : ∀ (k : Nat), ∀ (pos : Nat), pos + 2 * k = 8182 →
    ∀ (m : Nat), escape_sdr (List.replicate (k + m) 34) pos = qpairs k := by
  intro k
  induction k with
  | zero =>
    intro pos hp m
    rw [Nat.zero_add]
    cases m with
    | zero => rfl
    | succ m =>
      rw [List.replicate_succ, escape_sdr, if_neg (by omega)]
      rfl
  | succ k ih =>
    intro pos hp m
    have hrep : k + 1 + m = (k + m) + 1 := by omega
    rw [hrep, List.replicate_succ, escape_sdr, if_pos (by omega), if_pos rfl]
    rw [ih (pos + 2) (by omega) m]
    rfl

theorem json_unescape_qpairs : ∀ (k : Nat), json_unescape (qpairs k) = List.replicate k 34 := by
  intro k
  induction k with
  | zero => rfl
  | succ k ih =>
    rw [qpairs, json_unescape, if_pos rfl]
    rw [List.replicate_succ]
    have hm : unescMap 34 = 34 := rfl
    rw [hm, ih]

theorem filter_keep_34 (n : Nat) :
    (List.replicate n 34).filter sdrKeep = List.replicate n 34 :=
  List.filter_eq_self.mpr (fun a ha => by rw [List.eq_of_mem_replicate ha]; rfl)

/-- C9 counterexample: for the 4090-quote payload (within the 4096-byte
client read buffer), the escape loop stops at the 8182-byte frame limit
after 4084 quotes, so unescaping the built payload yields only 4084 bytes
rather than the full filtered input as the claim states for every byte
string. -/
theorem c9_counterexample :
    json_unescape (escape_sdr (List.replicate 4090 34) 14) ≠
      (List.replicate 4090 34).filter sdrKeep := by
  have h1 : escape_sdr (List.replicate 4090 34) 14 = qpairs 4084 :=
    escape_sdr_34_exact 4084 14 (by omega) 6
  rw [h1, json_unescape_qpairs, filter_keep_34]
  intro h
  have h2 := congrArg List.length h
  simp only [List.length_replicate] at h2
  omega

theorem escape_sdr_eq_pure : ∀ (d : List Nat) (pos : Nat), pos + 2 * d.length ≤ 8182 →
    escape_sdr d pos = escape_pure d := by
  intro d
  induction d with
  | nil => intro pos h; rfl
  | cons c rest ih =>
    intro pos h
    simp only [List.length_cons] at h
    rw [escape_sdr, escape_pure, if_pos (by omega)]
    split_ifs with h1 h2 h3 h4 h5
    · rw [ih (pos + 2) (by omega)]
    · rw [ih (pos + 2) (by omega)]
    · rw [ih (pos + 2) (by omega)]
    · rw [ih (pos + 2) (by omega)]
    · rw [ih (pos + 1) (by omega)]
    · exact ih pos (by omega)

theorem json_unescape_cons_ne (c : Nat) (l : List Nat) (h : ¬ c = 92) :
    json_unescape (c :: l) = c :: json_unescape l := by
  rw [json_unescape.eq_def]
  simp only [if_neg h]

theorem unescape_escape_pure : ∀ (d : List Nat),
    json_unescape (escape_pure d) = d.filter sdrKeep := by
  intro d
  induction d with
  | nil => rfl
  | cons c rest ih =>
    rw [escape_pure, List.filter_cons]
    by_cases h1 : c = 34
    · subst h1
      rw [if_pos rfl, json_unescape, if_pos rfl]
      show unescMap 34 :: json_unescape (escape_pure rest) = _
      rw [show unescMap 34 = 34 from rfl, ih, if_pos (by decide)]
    · rw [if_neg h1]
      by_cases h2 : c = 92
      · subst h2
        rw [if_pos rfl, json_unescape, if_pos rfl]
        show unescMap 92 :: json_unescape (escape_pure rest) = _
        rw [show unescMap 92 = 92 from rfl, ih, if_pos (by decide)]
      · rw [if_neg h2]
        by_cases h3 : c = 10
        · subst h3
          rw [if_pos rfl, json_unescape, if_pos rfl]
          show unescMap 110 :: json_unescape (escape_pure rest) = _
          rw [show unescMap 110 = 10 from rfl, ih, if_pos (by decide)]
        · rw [if_neg h3]
          by_cases h4 : c = 13
          · subst h4
            rw [if_pos rfl, json_unescape, if_pos rfl]
            show unescMap 114 :: json_unescape (escape_pure rest) = _
            rw [show unescMap 114 = 13 from rfl, ih, if_pos (by decide)]
          · rw [if_neg h4]
            by_cases h5 : 32 ≤ c ∧ c < 127
            · rw [if_pos h5, json_unescape_cons_ne c _ h2, ih]
              have hkeep : sdrKeep c = true := by
                simp only [sdrKeep, Bool.or_eq_true, Bool.and_eq_true, decide_eq_true_eq]
                exact Or.inl (Or.inl ⟨h5.1, h5.2⟩)
              rw [if_pos hkeep]
            · rw [if_neg h5, ih]
              have hkeep : ¬ sdrKeep c = true := by
                simp only [sdrKeep, Bool.or_eq_true, Bool.and_eq_true, decide_eq_true_eq,
                  beq_iff_eq]
                rintro ((⟨ha, hb⟩ | hc10) | hc13)
                · exact h5 ⟨ha, hb⟩
                · exact h3 hc10
                · exact h4 hc13
              rw [if_neg hkeep]

/-- C9 (amended): provided the escaped payload fits the 8 KiB frame buffer
(14 + 2·|d| ≤ 8182, which every payload of at most 4084 bytes satisfies),
unescaping the payload splitter_send_sdr builds for d yields exactly d
with every byte removed that is neither printable ASCII (32-126) nor
newline nor carriage return; in particular, on payloads of printable
ASCII, newline and carriage return the round trip is the identity. -/
theorem c9_escape_roundtrip (d : List Nat) (hfit : 14 + 2 * d.length ≤ 8182) :
    json_unescape (escape_sdr d 14) = d.filter sdrKeep ∧
    ((∀ c ∈ d, sdrKeep c = true) → json_unescape (escape_sdr d 14) = d) := by
  have h1 : escape_sdr d 14 = escape_pure d := escape_sdr_eq_pure d 14 hfit
  rw [h1, unescape_escape_pure]
  exact ⟨rfl, fun h => List.filter_eq_self.mpr h⟩

theorem c9_escape_roundtrip_witness :
    14 + 2 * [72, 10, 34, 9, 200].length ≤ 8182 ∧
    (json_unescape (escape_sdr [72, 10, 34, 9, 200] 14) =
      [72, 10, 34, 9, 200].filter sdrKeep ∧
     ((∀ c ∈ [72, 10, 34, 9, 200], sdrKeep c = true) →
      json_unescape (escape_sdr [72, 10, 34, 9, 200] 14) = [72, 10, 34, 9, 200])) :=
  ⟨by decide, c9_escape_roundtrip [72, 10, 34, 9, 200] (by decide)⟩

/-! ### Claim C10: json_get_string truncation -/

theorem takeWhile_value : ∀ (v rest : List Char), (∀ c ∈ v, c ≠ '"') →
    (v ++ '"' :: rest).takeWhile (fun c => c != '"') = v := by
  intro v
  induction v with
  | nil =>
    intro rest h
    rw [List.nil_append, List.takeWhile_cons]
    simp
  | cons c t ih =>
    intro rest h
    have hc : (c != '"') = true := by
      have := h c (by simp)
      simpa using this
    rw [List.cons_append, List.takeWhile_cons]
    simp [hc, ih rest (fun x hx => h x (by simp [hx]))]

/-- C10: json_get_string copies at most out_size - 1 bytes of a located
value, always terminating the output, returning the copied (possibly
truncated) value rather than rejecting long values; and at the registry
interface, a helo with a 70-byte id, a 40-byte kind and a 130-byte caps is
accepted and stored with the id cut to 63 bytes, the kind to 31 and the
caps to 127, without any error. -/
theorem c10_truncation :
    (∀ (json : List Char) (key : String) (out_size : Nat) (v rest : List Char),
      0 < out_size →
      afterFirst (getPattern key) json = some (v ++ '"' :: rest) →
      (∀ c ∈ v, c ≠ '"') →
      json_get_string json key out_size = some (String.mk (v.take (out_size - 1))) ∧
      (v.take (out_size - 1)).length ≤ out_size - 1) ∧
    ((process_discovery_message c10reg 0 heloLong 5).1.services.map Service.id =
        [String.mk (List.replicate 63 'a')] ∧
     (process_discovery_message c10reg 0 heloLong 5).1.services.map Service.service =
        [String.mk (List.replicate 31 'b')] ∧
     (process_discovery_message c10reg 0 heloLong 5).1.services.map Service.caps =
        [String.mk (List.replicate 127 'x')]) := by
  constructor
  · intro json key out_size v rest hos hfind hnq
    rw [json_get_string, hfind]
    dsimp only
    rw [takeWhile_value v rest hnq]
    have hne : ¬ v.length = (v ++ '"' :: rest).length := by
      rw [List.length_append, List.length_cons]
      omega
    rw [if_neg hne]
    constructor
    · by_cases hv : out_size ≤ v.length
      · rw [if_pos hv]
      · rw [if_neg hv, List.take_length,
          List.take_of_length_le (show v.length ≤ out_size - 1 by omega)]
    · rw [List.length_take]
      omega
  · refine ⟨?_, ?_, ?_⟩ <;> decide

theorem c10_truncation_witness :
    0 < 64 ∧
    afterFirst (getPattern "id") c10json =
      some (List.replicate 70 'a' ++ '"' :: '\x7d' :: []) ∧
    (∀ c ∈ List.replicate 70 'a', c ≠ '"') ∧
    (json_get_string c10json "id" 64 =
      some (String.mk ((List.replicate 70 'a').take (64 - 1))) ∧
     ((List.replicate 70 'a').take (64 - 1)).length ≤ 64 - 1) :=
  ⟨by decide, by decide, by decide,
   c10_truncation.1 c10json "id" 64 (List.replicate 70 'a') ('\x7d' :: [])
     (by decide) (by decide) (by decide)⟩

end PhoenixRelay
